import Mathlib

/-!
OfflineU — Course Hierarchy & Progress Model: verification of the spec.

This file gives a shallow embedding of the course-tree code of the OfflineU
frontend (`StatsPage.tsx` with its `LearningPathDashboard`/`CourseDashboard`
components, the `LessonView` sidebar, and `LibraryPage.tsx`) and proves or
refutes the spec's claims about it.

JS strings are modelled as `List Char` (`Str`).  JS `Record<string, T>`
objects are modelled as insertion-ordered lists of values (`Object.values`
iterates string keys in insertion order); the recursive `DirectoryNode` tree
uses a mutually-inductive node list so that all recursions are structural and
compute by reduction.  JS numbers are modelled as `Nat`/`Int` where the code
does integer arithmetic and as `ℚ` for the percentage computations (the JS
code uses IEEE doubles; the claims under study concern the guard structure of
those computations, not rounding).  `String.prototype.localeCompare`, whose
ordering is implementation- and locale-defined (ECMA-262), is kept as an
explicit comparator parameter `lc` throughout.
-/

/-- JS strings as lists of characters. -/
abbrev Str := List Char

/-- Convert a Lean string literal to the `Str` model. -/
def str (s : String) : Str := s.data

/-- Lesson type union from `types/api.ts`:
`'video' | 'audio' | 'text' | 'quiz' | 'mixed'`. -/
inductive LessonType where
  | video
  | audio
  | text
  | quiz
  | mixed
deriving DecidableEq

/-- `LessonItem` from `types/api.ts`: title, path, lesson_type, completed. -/
structure LessonItem where
  title : Str
  path : Str
  lesson_type : LessonType
  completed : Bool
deriving DecidableEq

mutual
/-- `DirectoryNode` from `types/api.ts`: name, path, children (ordered record
of child nodes), lessons (direct lessons of this node).  The record of
children is modelled as an insertion-ordered `NodeList` of the child nodes
(the code only ever consumes `Object.values(node.children)`). -/
inductive DirectoryNode where
  | mk (name : Str) (path : Str) (lessons : List LessonItem) (children : NodeList)

/-- Insertion-ordered list of child `DirectoryNode`s (the values of the
`children` record). -/
inductive NodeList where
  | nil
  | cons (head : DirectoryNode) (tail : NodeList)
end

/-- Field accessor: `node.name`. -/
def DirectoryNode.name : DirectoryNode → Str
  | .mk n _ _ _ => n

/-- Field accessor: `node.path`. -/
def DirectoryNode.path : DirectoryNode → Str
  | .mk _ p _ _ => p

/-- Field accessor: `node.lessons`. -/
def DirectoryNode.lessons : DirectoryNode → List LessonItem
  | .mk _ _ ls _ => ls

/-- Field accessor: `node.children`. -/
def DirectoryNode.children : DirectoryNode → NodeList
  | .mk _ _ _ ch => ch

/-- `Object.values(node.children)` as a plain list. -/
def NodeList.toList : NodeList → List DirectoryNode
  | .nil => []
  | .cons h t => h :: t.toList

mutual
/-- `getAllLessons` from `StatsPage.tsx` (LearningPathDashboard helpers):
`let lessons = [...node.lessons]; for (const child of Object.values(node.children))
lessons = lessons.concat(getAllLessons(child)); return lessons;` -/
def getAllLessons : DirectoryNode → List LessonItem
  | .mk _ _ lessons children => lessons ++ getAllLessonsChildren children

/-- The `for (const child of Object.values(node.children))` loop of
`getAllLessons`, concatenating child results in insertion order. -/
def getAllLessonsChildren : NodeList → List LessonItem
  | .nil => []
  | .cons c rest => getAllLessons c ++ getAllLessonsChildren rest
end

mutual
/-- `getAllLessonsFromNode` from the `LessonView` file: textually the same
recursion as `getAllLessons`, reimplemented at that call site. -/
def getAllLessonsFromNode : DirectoryNode → List LessonItem
  | .mk _ _ lessons children => lessons ++ getAllLessonsFromNodeChildren children

/-- The child loop of `getAllLessonsFromNode`. -/
def getAllLessonsFromNodeChildren : NodeList → List LessonItem
  | .nil => []
  | .cons c rest => getAllLessonsFromNode c ++ getAllLessonsFromNodeChildren rest
end

/-! ## String helpers

The JS code manipulates paths with `String.prototype.replace`.  With a string
(not regex) pattern, `replace` substitutes only the FIRST occurrence; all the
uses here have an empty replacement, so it deletes the first occurrence. -/

/-- `s.replace(/\\/g, '/')`: normalize every backslash to a forward slash. -/
def normSlash (s : Str) : Str :=
  s.map fun c => if c = '\\' then '/' else c

/-- `title.replace(/ /g, '_')`: replace every space by an underscore. -/
def underscoreSpaces (s : Str) : Str :=
  s.map fun c => if c = ' ' then '_' else c

/-- `s.replace(/^\//, '')`: strip one leading forward slash, if present. -/
def stripLeadSlash : Str → Str
  | [] => []
  | c :: rest => if c = '/' then rest else c :: rest

/-- `s.replace(/^[\\\/]/, '')` (also written `/^[\\/]/`): strip one leading
forward slash or backslash, if present. -/
def stripLeadSep : Str → Str
  | [] => []
  | c :: rest => if c = '/' ∨ c = '\\' then rest else c :: rest

/-- `s.replace(pat, '')` with a string pattern: delete the FIRST occurrence
of `pat` in `s` (no-op when `pat` does not occur; identity when `pat` is
empty, matching JS `s.replace('', '') === s`). -/
def replaceOnce (pat : Str) : Str → Str
  | [] => []
  | c :: cs =>
      if pat.isPrefixOf (c :: cs) then (c :: cs).drop pat.length
      else c :: replaceOnce pat cs

/-- Whether `pat` occurs as a contiguous substring of `s`. -/
def occursIn (pat : Str) : Str → Bool
  | [] => pat.isEmpty
  | c :: cs => pat.isPrefixOf (c :: cs) || occursIn pat cs

/-! ## Natural Order Comparator

Every sort call site inlines the same comparator:
```
const numA = parseInt(a.name.match(/^(\d+)/)?.[1] || '999999');
const numB = parseInt(b.name.match(/^(\d+)/)?.[1] || '999999');
if (numA !== numB) return numA - numB;
return a.name.localeCompare(b.name);
```
`localeCompare` is locale/implementation-defined, so it is the explicit
parameter `lc` below. -/

/-- `name.match(/^(\d+)/)?.[1]`: the maximal leading run of decimal digits. -/
def leadingDigits (s : Str) : Str :=
  s.takeWhile fun c => c.isDigit

/-- `parseInt` on a nonempty all-digit string (decimal). -/
def digitsToNat (s : Str) : Nat :=
  s.foldl (fun n c => 10 * n + (c.toNat - 48)) 0

/-- `parseInt(name.match(/^(\d+)/)?.[1] || '999999')`: the numeric prefix of
the name, defaulting to the sentinel `999999` when the name has no leading
digits. -/
def numPrefixOr999999 (s : Str) : Nat :=
  let d := leadingDigits s
  if d = [] then 999999 else digitsToNat d

/-- The inlined comparator: numeric-prefix comparison, falling back to
`localeCompare` (the parameter `lc`) when the prefixes coincide. -/
def naturalCompare (lc : Str → Str → Int) (a b : Str) : Int :=
  let numA := numPrefixOr999999 a
  let numB := numPrefixOr999999 b
  if numA ≠ numB then (numA : Int) - (numB : Int) else lc a b

/-- A concrete instantiation of the `localeCompare` parameter, used to build
closed counterexamples whose outcome does not depend on the tie-break. -/
def lc0 : Str → Str → Int := fun _ _ => 0

/-- Stable insertion of `x` into a comparator-sorted list: `x` is placed
before the first element it does not compare strictly after (ties keep the
earlier-inserted element first, as with JS's stable `Array.prototype.sort`). -/
def insertByComparator (cmp : α → α → Int) (x : α) : List α → List α
  | [] => [x]
  | y :: ys => if cmp x y ≤ 0 then x :: y :: ys else y :: insertByComparator cmp x ys

/-- `array.sort(cmp)` for a consistent comparator: a stable sort (any stable
sort computes the result mandated for JS's stable `Array.prototype.sort`). -/
def sortByComparator (cmp : α → α → Int) : List α → List α
  | [] => []
  | x :: xs => insertByComparator cmp x (sortByComparator cmp xs)

/-- The child-directory sort applied at every tree level:
`Object.values(node.children).sort((a, b) => ...naturalCompare on .name...)`. -/
def sortChildren (lc : Str → Str → Int) (children : List DirectoryNode) : List DirectoryNode :=
  sortByComparator (fun a b => naturalCompare lc a.name b.name) children

/-! ## Canonical lesson key derivations (the three call sites of §4.1) -/

/-- `buildLessonFullPath` from the `LessonView` sidebar (`SidebarNode`):
normalize separators in both paths, delete the first occurrence of the
(normalized) course path from the (normalized) lesson path, strip one leading
slash, then append `/` and the underscored title. -/
def buildLessonFullPath (coursePath : Str) (path title : Str) : Str :=
  let normalizedLessonPath := normSlash path
  let normalizedCoursePath := normSlash coursePath
  let relativePath := stripLeadSlash (replaceOnce normalizedCoursePath normalizedLessonPath)
  relativePath ++ '/' :: underscoreSpaces title

/-- The `CourseDashboard` `TreeNode` click handler:
`lesson.path.replace(coursePath, '').replace(/^[\\\/]/, '').replace(/\\/g, '/')`
then `` `${relativePath}/${lesson.title.replace(/ /g, '_')}` ``.
Note it strips the RAW course path and only then normalizes separators. -/
def treeNodeLessonKey (coursePath : Str) (path title : Str) : Str :=
  let relativePath := normSlash (stripLeadSep (replaceOnce coursePath path))
  relativePath ++ '/' :: underscoreSpaces title

/-- `navigateToLesson` from the `LearningPathDashboard`:
`subCoursePath.replace(course?.path || '', '').replace(/\\/g, '/').replace(/^[\\/]/, '')`
then `` `${relativePath}/${lessonTitle.replace(/ /g, '_')}` ``.
It strips the raw course path, normalizes, then strips one leading separator. -/
def navigateToLessonKey (coursePath : Str) (path title : Str) : Str :=
  let relativePath := stripLeadSep (normSlash (replaceOnce coursePath path))
  relativePath ++ '/' :: underscoreSpaces title

/-! ## Folder completion and batch completion (LessonView sidebar) -/

/-- The `SidebarNode` all-completed check:
`allLessonsInNode.length > 0 && allLessonsInNode.every(l => l.completed)`
over `getAllLessonsFromNode(node)`. -/
def sidebarAllCompleted (node : DirectoryNode) : Bool :=
  let allLessonsInNode := getAllLessonsFromNode node
  decide (allLessonsInNode.length > 0) && allLessonsInNode.all fun l => l.completed

mutual
/-- `getAllLessonPaths` from `SidebarNode`: collect `buildLessonFullPath` of
every lesson of the node, then recurse into `Object.values(targetNode.children)`
in insertion order. -/
def getAllLessonPaths (coursePath : Str) : DirectoryNode → List Str
  | .mk _ _ lessons children =>
      lessons.map (fun l => buildLessonFullPath coursePath l.path l.title)
        ++ getAllLessonPathsChildren coursePath children

/-- The child loop of `getAllLessonPaths`. -/
def getAllLessonPathsChildren (coursePath : Str) : NodeList → List Str
  | .nil => []
  | .cons c rest =>
      getAllLessonPaths coursePath c ++ getAllLessonPathsChildren coursePath rest
end

/-- `markFolderComplete` from `SidebarNode`: the batch of canonical keys it
submits (one `(key, completed)` update per key, issued concurrently via
`Promise.all`; the key list is the model of the batch). -/
def markFolderComplete (coursePath : Str) (node : DirectoryNode) : List Str :=
  getAllLessonPaths coursePath node

/-! ## Sub-Course Decomposer (`LearningPathDashboard` helpers) -/

/-- `FolderLessonItem` from `StatsPage.tsx`: a `LessonItem` extended with an
optional `displayName` (the folder name shown in the UI while `title`/`path`
address the representative lesson). -/
structure FolderLessonItem where
  title : Str
  path : Str
  lesson_type : LessonType
  completed : Bool
  displayName : Option Str
deriving DecidableEq

/-- The fallback `return [...node.lessons]`: a direct lesson viewed as a
`FolderLessonItem` (no `displayName`). -/
def liftLessonItem (l : LessonItem) : FolderLessonItem :=
  { title := l.title, path := l.path, lesson_type := l.lesson_type
    completed := l.completed, displayName := none }

/-- The all-completed flag computed per child folder in
`getChildFoldersAsLessons`:
`lessonsInFolder.length > 0 && lessonsInFolder.every(l => l.completed)`
over `getAllLessons(child)` — textually the same check as the sidebar's. -/
def folderAllCompleted (child : DirectoryNode) : Bool :=
  let lessonsInFolder := getAllLessons child
  decide (lessonsInFolder.length > 0) && lessonsInFolder.all fun l => l.completed

/-- The `lessonType` computed per child folder in `getChildFoldersAsLessons`:
initialized to `'text'`, then overridden by the first matching priority check
`some(video)`, `some(audio)`, `some(quiz)` over `getAllLessons(child)`. -/
def folderLessonType (child : DirectoryNode) : LessonType :=
  let lessonsInFolder := getAllLessons child
  if lessonsInFolder.any (fun l => l.lesson_type = LessonType.video) then .video
  else if lessonsInFolder.any (fun l => l.lesson_type = LessonType.audio) then .audio
  else if lessonsInFolder.any (fun l => l.lesson_type = LessonType.quiz) then .quiz
  else .text

/-- The representative of a child folder in `getChildFoldersAsLessons`:
`lessonsInFolder.find(l => l.lesson_type === 'video') || lessonsInFolder[0]`. -/
def folderFirstLesson (child : DirectoryNode) : Option LessonItem :=
  let lessonsInFolder := getAllLessons child
  match lessonsInFolder.find? (fun l => l.lesson_type = LessonType.video) with
  | some l => some l
  | none => lessonsInFolder.head?

/-- The loop body of `getChildFoldersAsLessons` for one child folder: push an
entry (representative's title/path, folder's priority type and all-completed
flag, folder name as display name) only when a representative exists
(`if (firstLesson)`). -/
def mkFolderEntry (child : DirectoryNode) : Option FolderLessonItem :=
  match folderFirstLesson child with
  | some fl =>
      some { title := fl.title, path := fl.path, lesson_type := folderLessonType child
             completed := folderAllCompleted child, displayName := some child.name }
  | none => none

/-- `getChildFoldersAsLessons` from `StatsPage.tsx`: sort the child folders
with the natural comparator, build one optional entry per child, and fall
back to the node's direct lessons when no entry was produced. -/
def getChildFoldersAsLessons (lc : Str → Str → Int) (node : DirectoryNode) :
    List FolderLessonItem :=
  let sortedChildren := sortChildren lc node.children.toList
  let folderLessons := sortedChildren.filterMap mkFolderEntry
  if folderLessons.length = 0 then node.lessons.map liftLessonItem else folderLessons

/-- `SubCourseInfo` from `StatsPage.tsx`.  `progress` is the percentage the
code computes with JS number division, modelled exactly over `ℚ`. -/
structure SubCourseInfo where
  name : Str
  path : Str
  totalLessons : Nat
  completedLessons : Nat
  progress : ℚ
  lessons : List FolderLessonItem

/-- `extractSubCourses` from `StatsPage.tsx`: one `SubCourseInfo` per direct
child of the root (in insertion order), then the final
`subs.sort((a, b) => ...natural comparator on .name...)`. -/
def extractSubCourses (lc : Str → Str → Int) (rootNode : DirectoryNode) :
    List SubCourseInfo :=
  let subs := rootNode.children.toList.map fun child =>
    let allLessons := getAllLessons child
    let completed := (allLessons.filter fun l => l.completed).length
    { name := child.name
      path := child.path
      totalLessons := allLessons.length
      completedLessons := completed
      progress :=
        if allLessons.length > 0 then
          ((completed : ℚ) / (allLessons.length : ℚ)) * 100
        else 0
      lessons := getChildFoldersAsLessons lc child : SubCourseInfo }
  sortByComparator (fun a b => naturalCompare lc a.name b.name) subs

/-- The `LibraryCard` progress computation from `LibraryPage.tsx`:
`item.total_lessons > 0 ? (item.completed_lessons / item.total_lessons) * 100 : 0`. -/
def libraryCardProgress (completed_lessons total_lessons : Nat) : ℚ :=
  if total_lessons > 0 then
    ((completed_lessons : ℚ) / (total_lessons : ℚ)) * 100
  else 0

/-- The entry produced by `mkFolderEntry` for a folder that yields one
(i.e. whose subtree holds at least one lesson); a junk default otherwise. -/
def folderDisplayEntry (child : DirectoryNode) : FolderLessonItem :=
  (mkFolderEntry child).getD (liftLessonItem ⟨[], [], LessonType.text, false⟩)

/-! ## Concrete instances used by counterexamples and witnesses -/

/-- An empty folder: no direct lessons, no children. -/
def wEmpty : DirectoryNode := .mk (str "E") (str "/r/E") [] .nil

/-- A folder with one completed lesson. -/
def wDone : DirectoryNode :=
  .mk (str "D") (str "/r/D") [⟨str "t", str "/r/D/t.mp4", .video, true⟩] .nil

/-- A child folder named `1 A` holding the lesson titled `1 a`. -/
def node1A : DirectoryNode :=
  .mk (str "1 A") (str "/r/C/1 A")
    [⟨str "1 a", str "/r/C/1 A/a.mp4", .text, false⟩] .nil

/-- A child folder named `2 B` holding the lesson titled `2 b`. -/
def node2B : DirectoryNode :=
  .mk (str "2 B") (str "/r/C/2 B")
    [⟨str "2 b", str "/r/C/2 B/b.mp4", .text, false⟩] .nil

/-- A node whose children record was built in the insertion order
`2 B`, `1 A` — the reverse of their natural order. -/
def cexC3 : DirectoryNode :=
  .mk (str "C") (str "/r/C") [] (.cons node2B (.cons node1A .nil))

/-- A root child with two direct lessons and one child folder whose subtree
holds zero lessons. -/
def cexC4 : DirectoryNode :=
  .mk (str "C") (str "/r/C")
    [⟨str "x1", str "/r/C/x1.mp4", .video, false⟩,
     ⟨str "x2", str "/r/C/x2.mp4", .video, false⟩]
    (.cons (.mk (str "Sub") (str "/r/C/Sub") [] .nil) .nil)

/-- A child folder (of a learning-path course) without videos whose own
children were inserted in reverse natural order: `2 B` before `1 A`. -/
def cexF5 : DirectoryNode :=
  .mk (str "F") (str "/r/C/F") [] (.cons node2B (.cons node1A .nil))

/-- A learning-path course whose single child folder is `cexF5`. -/
def cexC5 : DirectoryNode :=
  .mk (str "C") (str "/r/C") [] (.cons cexF5 .nil)

/-- A child folder holding one `text` lesson and one `video` lesson. -/
def w5F : DirectoryNode :=
  .mk (str "01 Folder") (str "/r/C/01 Folder")
    [⟨str "a text", str "/r/C/01 Folder/a.txt", .text, false⟩,
     ⟨str "b vid", str "/r/C/01 Folder/b.mp4", .video, false⟩] .nil

/-- The `video` lesson of `w5F`. -/
def w5video : LessonItem := ⟨str "b vid", str "/r/C/01 Folder/b.mp4", .video, false⟩

/-- A course node whose single child folder is `w5F`. -/
def w5C : DirectoryNode := .mk (str "C") (str "/r/C") [] (.cons w5F .nil)

/-- Two lessons with distinct paths whose canonical keys collide because the
first title contains a path separator: `a` + `/` + `x/y` equals
`a/x` + `/` + `y`. -/
def cex8 : DirectoryNode :=
  .mk (str "F") (str "/r/F")
    [⟨str "x/y", str "/r/a", .text, false⟩,
     ⟨str "y", str "/r/a/x", .text, false⟩] .nil

/-- A folder with five lessons (three direct, two in a child folder), all
with distinct anchored paths and separator-free titles. -/
def w8 : DirectoryNode :=
  .mk (str "F") (str "/r/F")
    [⟨str "l one", str "/r/F/a1.mp4", .video, false⟩,
     ⟨str "l two", str "/r/F/a2.mp4", .video, true⟩,
     ⟨str "l three", str "/r/F/a3.mp4", .audio, false⟩]
    (.cons (.mk (str "Sub") (str "/r/F/Sub")
      [⟨str "l four", str "/r/F/Sub/a4.mp4", .text, false⟩,
       ⟨str "l five", str "/r/F/Sub/a5.mp4", .quiz, true⟩] .nil) .nil)

/-! ## Helper lemmas: tree collectors -/

theorem getAllLessonsChildren_toList : ∀ l : NodeList,
    getAllLessonsChildren l = l.toList.flatMap getAllLessons
  | .nil => rfl
  | .cons c rest => by
      simp [getAllLessonsChildren, NodeList.toList,
        getAllLessonsChildren_toList rest]

mutual

theorem getAllLessons_eq_fromNode : ∀ n : DirectoryNode,
    getAllLessons n = getAllLessonsFromNode n
  | .mk n p ls ch => by
      simp only [getAllLessons, getAllLessonsFromNode,
        getAllLessonsChildren_eq_fromNode ch]

theorem getAllLessonsChildren_eq_fromNode : ∀ l : NodeList,
    getAllLessonsChildren l = getAllLessonsFromNodeChildren l
  | .nil => rfl
  | .cons c rest => by
      simp only [getAllLessonsChildren, getAllLessonsFromNodeChildren,
        getAllLessons_eq_fromNode c, getAllLessonsChildren_eq_fromNode rest]

end

theorem getAllLessons_decomp (n : DirectoryNode) :
    getAllLessons n = n.lessons ++ n.children.toList.flatMap getAllLessons := by
  cases n with
  | mk n p ls ch =>
      simp only [getAllLessons, DirectoryNode.lessons, DirectoryNode.children,
        getAllLessonsChildren_toList]

mutual

theorem getAllLessonPaths_eq_map (cp : Str) : ∀ n : DirectoryNode,
    getAllLessonPaths cp n
      = (getAllLessonsFromNode n).map fun l => buildLessonFullPath cp l.path l.title
  | .mk n p ls ch => by
      simp only [getAllLessonPaths, getAllLessonsFromNode, List.map_append,
        getAllLessonPathsChildren_eq_map cp ch]

theorem getAllLessonPathsChildren_eq_map (cp : Str) : ∀ l : NodeList,
    getAllLessonPathsChildren cp l
      = (getAllLessonsFromNodeChildren l).map fun l => buildLessonFullPath cp l.path l.title
  | .nil => rfl
  | .cons c rest => by
      simp only [getAllLessonPathsChildren, getAllLessonsFromNodeChildren,
        List.map_append, getAllLessonPaths_eq_map cp c,
        getAllLessonPathsChildren_eq_map cp rest]

end

/-! ## Helper lemmas: sorting -/

theorem insertByComparator_perm (cmp : α → α → Int) (x : α) (l : List α) :
    (insertByComparator cmp x l).Perm (x :: l) := by
  induction l with
  | nil => exact List.Perm.refl _
  | cons y ys ih =>
      by_cases h : cmp x y ≤ 0
      · simp [insertByComparator, h]
      · simp only [insertByComparator, if_neg h]
        exact (ih.cons y).trans (List.Perm.swap x y ys)

theorem sortByComparator_perm (cmp : α → α → Int) (l : List α) :
    (sortByComparator cmp l).Perm l := by
  induction l with
  | nil => exact List.Perm.refl _
  | cons x xs ih =>
      exact (insertByComparator_perm cmp x (sortByComparator cmp xs)).trans (ih.cons x)

theorem mem_sortByComparator {cmp : α → α → Int} {x : α} {l : List α} :
    x ∈ sortByComparator cmp l ↔ x ∈ l :=
  (sortByComparator_perm cmp l).mem_iff

/-! ## Helper lemmas: string operations -/

theorem isPrefixOf_append_self (p s : Str) : p.isPrefixOf (p ++ s) = true := by
  induction p with
  | nil => simp
  | cons a as ih => simp [List.isPrefixOf_cons₂, ih]

theorem replaceOnce_nil_pat (s : Str) : replaceOnce [] s = s := by
  cases s with
  | nil => rfl
  | cons c cs => simp [replaceOnce, List.isPrefixOf]

theorem replaceOnce_append_self (p s : Str) : replaceOnce p (p ++ s) = s := by
  cases p with
  | nil => exact replaceOnce_nil_pat s
  | cons a as =>
      have hne : (a :: as) ++ s = a :: (as ++ s) := rfl
      rw [hne]
      simp [replaceOnce, isPrefixOf_append_self (a :: as) s,
        List.drop_left (a :: as) s]

theorem replaceOnce_not_occurs {p s : Str} (h : occursIn p s = false) :
    replaceOnce p s = s := by
  induction s with
  | nil => rfl
  | cons c cs ih =>
      simp only [occursIn, Bool.or_eq_false_iff] at h
      simp [replaceOnce, h.1, ih h.2]

theorem mem_of_mem_replaceOnce {p s : Str} {a : Char}
    (h : a ∈ replaceOnce p s) : a ∈ s := by
  induction s with
  | nil => simp [replaceOnce] at h
  | cons c cs ih =>
      by_cases hp : p.isPrefixOf (c :: cs)
      · simp only [replaceOnce, if_pos hp] at h
        exact List.mem_of_mem_drop h
      · simp only [replaceOnce, if_neg hp, List.mem_cons] at h
        rcases h with h | h
        · exact h ▸ List.mem_cons_self c cs
        · exact List.mem_cons_of_mem c (ih h)

theorem normSlash_eq_self {s : Str} (h : ¬ '\\' ∈ s) : normSlash s = s := by
  induction s with
  | nil => rfl
  | cons c cs ih =>
      simp only [List.mem_cons, not_or] at h
      have hc : ¬ c = '\\' := fun e => h.1 e.symm
      simp only [normSlash, List.map_cons, if_neg hc]
      exact congrArg (c :: ·) (ih h.2)

theorem underscoreSpaces_no_slash {s : Str} (h : ¬ '/' ∈ s) :
    ¬ '/' ∈ underscoreSpaces s := by
  intro hmem
  obtain ⟨c, hc, he⟩ := List.mem_map.mp hmem
  by_cases hs : c = ' '
  · simp [hs] at he
  · rw [if_neg hs] at he
    exact h (he ▸ hc)

theorem stripLeadSep_eq_stripLeadSlash {s : Str} (h : ¬ '\\' ∈ s) :
    stripLeadSep s = stripLeadSlash s := by
  cases s with
  | nil => rfl
  | cons c cs =>
      simp only [List.mem_cons, not_or] at h
      have hb : ¬ c = '\\' := fun e => h.1 e.symm
      by_cases hc : c = '/'
      · simp [stripLeadSep, stripLeadSlash, hc]
      · simp [stripLeadSep, stripLeadSlash, hc, hb]

theorem mem_of_mem_stripLeadSep {s : Str} {a : Char}
    (h : a ∈ stripLeadSep s) : a ∈ s := by
  cases s with
  | nil => simp [stripLeadSep] at h
  | cons c cs =>
      by_cases hc : c = '/' ∨ c = '\\'
      · simp only [stripLeadSep, if_pos hc] at h
        exact List.mem_cons_of_mem c h
      · simpa only [stripLeadSep, if_neg hc] using h

theorem isPrefixOf_iff_exists {p s : Str} :
    p.isPrefixOf s = true ↔ ∃ t, s = p ++ t := by
  induction p generalizing s with
  | nil => simp
  | cons a as ih =>
      cases s with
      | nil => simp
      | cons b bs =>
          simp only [List.isPrefixOf_cons₂, Bool.and_eq_true, beq_iff_eq,
            List.cons_append, List.cons.injEq, ih]
          constructor
          · rintro ⟨hab, t, ht⟩; exact ⟨t, hab.symm, ht⟩
          · rintro ⟨t, hba, ht⟩; exact ⟨hba.symm, t, ht⟩

theorem buildLessonFullPath_anchored {cp p rel : Str} (t : Str)
    (h : normSlash p = normSlash cp ++ '/' :: rel) :
    buildLessonFullPath cp p t = rel ++ '/' :: underscoreSpaces t := by
  simp only [buildLessonFullPath]
  rw [h, replaceOnce_append_self (normSlash cp) ('/' :: rel)]
  simp [stripLeadSlash]

theorem append_slash_inj : ∀ {xs ys as bs : Str},
    ¬ '/' ∈ xs → ¬ '/' ∈ ys → xs ++ '/' :: as = ys ++ '/' :: bs →
    xs = ys ∧ as = bs := by
  intro xs
  induction xs with
  | nil =>
      intro ys as bs _ hy h
      cases ys with
      | nil => simpa using h
      | cons y yt =>
          simp only [List.nil_append, List.cons_append, List.cons.injEq] at h
          exact absurd (h.1 ▸ List.mem_cons_self y yt) hy
  | cons x xt ih =>
      intro ys as bs hx hy h
      cases ys with
      | nil =>
          simp only [List.cons_append, List.nil_append, List.cons.injEq] at h
          exact absurd (h.1 ▸ List.mem_cons_self x xt) hx
      | cons y yt =>
          simp only [List.cons_append, List.cons.injEq] at h
          have hx' : ¬ '/' ∈ xt := fun m => hx (List.mem_cons_of_mem x m)
          have hy' : ¬ '/' ∈ yt := fun m => hy (List.mem_cons_of_mem y m)
          obtain ⟨h1, h2⟩ := ih hx' hy' h.2
          exact ⟨by rw [h.1, h1], h2⟩

theorem append_slash_last_inj {r1 r2 u1 u2 : Str}
    (h1 : ¬ '/' ∈ u1) (h2 : ¬ '/' ∈ u2)
    (h : r1 ++ '/' :: u1 = r2 ++ '/' :: u2) : r1 = r2 ∧ u1 = u2 := by
  have hr := congrArg List.reverse h
  simp only [List.reverse_append, List.reverse_cons] at hr
  rw [List.append_assoc, List.append_assoc, List.singleton_append,
    List.singleton_append] at hr
  have h1r : ¬ '/' ∈ u1.reverse := fun m => h1 (List.mem_reverse.mp m)
  have h2r : ¬ '/' ∈ u2.reverse := fun m => h2 (List.mem_reverse.mp m)
  obtain ⟨hu, hrr⟩ := append_slash_inj h1r h2r hr
  exact ⟨List.reverse_injective hrr, List.reverse_injective hu⟩

/-! ## Helper lemmas: the Sub-Course Decomposer -/

theorem folderFirstLesson_eq_none_iff (child : DirectoryNode) :
    folderFirstLesson child = none ↔ getAllLessons child = [] := by
  simp only [folderFirstLesson]
  cases hls : getAllLessons child with
  | nil => simp
  | cons a as =>
      cases hf : (a :: as).find? fun l => l.lesson_type = LessonType.video with
      | some v => simp [hf]
      | none => simp [hf]

theorem mkFolderEntry_eq_none_iff (child : DirectoryNode) :
    mkFolderEntry child = none ↔ getAllLessons child = [] := by
  rw [← folderFirstLesson_eq_none_iff]
  simp only [mkFolderEntry]
  cases folderFirstLesson child with
  | some fl => simp
  | none => simp

theorem mkFolderEntry_eq_some_folderDisplayEntry {child : DirectoryNode}
    (h : getAllLessons child ≠ []) :
    mkFolderEntry child = some (folderDisplayEntry child) := by
  cases he : mkFolderEntry child with
  | none => exact absurd ((mkFolderEntry_eq_none_iff child).mp he) h
  | some e => simp [folderDisplayEntry, he]

theorem folderDisplayEntry_of_some {child : DirectoryNode} {fl : LessonItem}
    (h : folderFirstLesson child = some fl) :
    folderDisplayEntry child =
      { title := fl.title, path := fl.path, lesson_type := folderLessonType child
        completed := folderAllCompleted child, displayName := some child.name } := by
  simp [folderDisplayEntry, mkFolderEntry, h]

theorem folderLessonType_video_iff (child : DirectoryNode) :
    folderLessonType child = LessonType.video ↔
      ∃ l ∈ getAllLessons child, l.lesson_type = LessonType.video := by
  simp only [folderLessonType]
  by_cases h : (getAllLessons child).any (fun l => l.lesson_type = LessonType.video) = true
  · rw [if_pos h]
    simp only [List.any_eq_true, decide_eq_true_eq] at h
    exact ⟨fun _ => h, fun _ => rfl⟩
  · rw [if_neg h]
    simp only [List.any_eq_true, decide_eq_true_eq] at h
    push_neg at h
    constructor
    · intro habs
      exfalso
      revert habs
      split
      · intro habs; cases habs
      · split
        · intro habs; cases habs
        · intro habs; cases habs
    · rintro ⟨l, hl, hv⟩
      exact absurd hv (h l hl)

theorem folderLessonType_spec (child : DirectoryNode) :
    folderLessonType child =
      if ∃ l ∈ getAllLessons child, l.lesson_type = LessonType.video then
        LessonType.video
      else if ∃ l ∈ getAllLessons child, l.lesson_type = LessonType.audio then
        LessonType.audio
      else if ∃ l ∈ getAllLessons child, l.lesson_type = LessonType.quiz then
        LessonType.quiz
      else LessonType.text := by
  simp only [folderLessonType]
  by_cases hv : ∃ l ∈ getAllLessons child, l.lesson_type = LessonType.video
  · have hv2 : (getAllLessons child).any
        (fun l => l.lesson_type = LessonType.video) = true := by
      simp only [List.any_eq_true, decide_eq_true_eq]
      exact hv
    rw [if_pos hv2, if_pos hv]
  · have hv2 : ¬ (getAllLessons child).any
        (fun l => l.lesson_type = LessonType.video) = true := by
      simp only [List.any_eq_true, decide_eq_true_eq]
      exact hv
    rw [if_neg hv2, if_neg hv]
    by_cases ha : ∃ l ∈ getAllLessons child, l.lesson_type = LessonType.audio
    · have ha2 : (getAllLessons child).any
          (fun l => l.lesson_type = LessonType.audio) = true := by
        simp only [List.any_eq_true, decide_eq_true_eq]
        exact ha
      rw [if_pos ha2, if_pos ha]
    · have ha2 : ¬ (getAllLessons child).any
          (fun l => l.lesson_type = LessonType.audio) = true := by
        simp only [List.any_eq_true, decide_eq_true_eq]
        exact ha
      rw [if_neg ha2, if_neg ha]
      by_cases hq : ∃ l ∈ getAllLessons child, l.lesson_type = LessonType.quiz
      · have hq2 : (getAllLessons child).any
            (fun l => l.lesson_type = LessonType.quiz) = true := by
          simp only [List.any_eq_true, decide_eq_true_eq]
          exact hq
        rw [if_pos hq2, if_pos hq]
      · have hq2 : ¬ (getAllLessons child).any
            (fun l => l.lesson_type = LessonType.quiz) = true := by
          simp only [List.any_eq_true, decide_eq_true_eq]
          exact hq
        rw [if_neg hq2, if_neg hq]

theorem filterMap_mkFolderEntry (l : List DirectoryNode) :
    l.filterMap mkFolderEntry
      = (l.filter fun c => !(getAllLessons c).isEmpty).map folderDisplayEntry := by
  induction l with
  | nil => rfl
  | cons c cs ih =>
      by_cases h : getAllLessons c = []
      · have hn : mkFolderEntry c = none := (mkFolderEntry_eq_none_iff c).mpr h
        simp [List.filterMap_cons, List.filter_cons, hn, h, ih]
      · have hs := mkFolderEntry_eq_some_folderDisplayEntry h
        simp [List.filterMap_cons, List.filter_cons, hs, h, ih]

theorem getChildFoldersAsLessons_eq (lc : Str → Str → Int) (node : DirectoryNode) :
    getChildFoldersAsLessons lc node =
      if ((sortChildren lc node.children.toList).filter
            fun c => !(getAllLessons c).isEmpty).map folderDisplayEntry = [] then
        node.lessons.map liftLessonItem
      else
        ((sortChildren lc node.children.toList).filter
            fun c => !(getAllLessons c).isEmpty).map folderDisplayEntry := by
  simp only [getChildFoldersAsLessons]
  rw [filterMap_mkFolderEntry]
  simp only [List.length_eq_zero]

/-! ## Claims -/

/-- Claim C1: every sub-course entry built by `extractSubCourses` carries
`progress = completedLessons/totalLessons * 100` when `totalLessons > 0` and
`progress = 0` when `totalLessons = 0`, and the `LibraryCard` progress
computation satisfies the same guard — the division is never performed on a
zero total. -/
theorem c1_percentage_guard (lc : Str → Str → Int) (rootNode : DirectoryNode) :
    ((extractSubCourses lc rootNode).Forall fun sub =>
        sub.progress =
          if sub.totalLessons > 0 then
            ((sub.completedLessons : ℚ) / (sub.totalLessons : ℚ)) * 100
          else 0)
    ∧ (∀ completed total : Nat, total = 0 → libraryCardProgress completed total = 0)
    ∧ (∀ completed total : Nat, 0 < total →
        libraryCardProgress completed total = ((completed : ℚ) / (total : ℚ)) * 100) := by
  refine ⟨?_, ?_, ?_⟩
  · rw [List.forall_iff_forall_mem]
    intro sub hsub
    simp only [extractSubCourses] at hsub
    rw [mem_sortByComparator] at hsub
    obtain ⟨child, hc, rfl⟩ := List.mem_map.mp hsub
    rfl
  · intro completed total ht
    simp [libraryCardProgress, ht]
  · intro completed total ht
    simp [libraryCardProgress, ht]

/-- Claim C1 witness: the guard at the concrete inputs `total = 0` and
`total = 4`. -/
theorem c1_percentage_guard_witness :
    libraryCardProgress 3 0 = 0
    ∧ libraryCardProgress 3 4 = ((3 : ℚ) / (4 : ℚ)) * 100 :=
  ⟨(c1_percentage_guard lc0 wEmpty).2.1 3 0 rfl,
   (c1_percentage_guard lc0 wEmpty).2.2 3 4 (by norm_num)⟩

/-- Claim C2: a folder counts as fully complete (both in the sidebar's
`allCompleted` check and in the display entry's per-folder flag) exactly when
its subtree holds at least one lesson and every such lesson is completed; in
particular both flags are `false` for a folder whose subtree has zero
lessons. -/
theorem c2_fully_complete_iff (node : DirectoryNode) :
    (sidebarAllCompleted node = true ↔
      getAllLessonsFromNode node ≠ []
        ∧ ∀ l ∈ getAllLessonsFromNode node, l.completed = true)
    ∧ (folderAllCompleted node = true ↔
      getAllLessons node ≠ [] ∧ ∀ l ∈ getAllLessons node, l.completed = true)
    ∧ (getAllLessonsFromNode node = [] → sidebarAllCompleted node = false)
    ∧ (getAllLessons node = [] → folderAllCompleted node = false) := by
  refine ⟨?_, ?_, fun he => ?_, fun he => ?_⟩
  · simp [sidebarAllCompleted, Bool.and_eq_true, decide_eq_true_eq,
      List.all_eq_true, List.length_pos]
  · simp [folderAllCompleted, Bool.and_eq_true, decide_eq_true_eq,
      List.all_eq_true, List.length_pos]
  · simp [sidebarAllCompleted, he]
  · simp [folderAllCompleted, he]

/-- Claim C2 witness: the empty folder is not fully complete; the folder with
one completed lesson is. -/
theorem c2_fully_complete_iff_witness :
    sidebarAllCompleted wEmpty = false ∧ folderAllCompleted wDone = true :=
  ⟨(c2_fully_complete_iff wEmpty).2.2.1 rfl,
   (c2_fully_complete_iff wDone).2.1.mpr ⟨by decide, by decide⟩⟩

/-- Claim C3 counterexample: on a node whose children record was inserted in
the order `2 B`, `1 A`, the collector does NOT visit the children in Natural
Order Comparator order — its output differs from the claimed
own-lessons-then-sorted-children decomposition (which the claim entails at
every node). -/
theorem c3_counterexample :
    getAllLessons cexC3
      ≠ cexC3.lessons
          ++ (sortChildren lc0 cexC3.children.toList).flatMap getAllLessons := by
  decide

/-- Claim C3 amended: `collectLessons` returns the node's direct lessons
followed by each child subtree's lessons with the children visited in the
children-record's insertion order (not comparator order); the two
implementations (`getAllLessons`, `getAllLessonsFromNode`) agree, and the
result is a permutation of the comparator-ordered visit. -/
theorem c3_insertion_order_collect (lc : Str → Str → Int) (node : DirectoryNode) :
    getAllLessons node = getAllLessonsFromNode node
    ∧ getAllLessons node
        = node.lessons ++ node.children.toList.flatMap getAllLessons
    ∧ (node.lessons
        ++ (sortChildren lc node.children.toList).flatMap getAllLessons).Perm
        (getAllLessons node) := by
  refine ⟨getAllLessons_eq_fromNode node, getAllLessons_decomp node, ?_⟩
  have hp : (sortChildren lc node.children.toList).Perm node.children.toList :=
    sortByComparator_perm _ _
  have h2 := (hp.flatMap_right getAllLessons).append_left node.lessons
  rw [getAllLessons_decomp node]
  exact h2

/-- Claim C4 counterexample: `cexC4` has exactly one child folder (with an
empty subtree) yet the display lesson list is the node's two direct lessons
verbatim — no entry is produced for the zero-lesson child folder and the
fallback fires even though a child folder exists. -/
theorem c4_counterexample :
    cexC4.children.toList.length = 1
    ∧ getChildFoldersAsLessons lc0 cexC4
        = [⟨str "x1", str "/r/C/x1.mp4", .video, false, none⟩,
           ⟨str "x2", str "/r/C/x2.mp4", .video, false, none⟩] := by
  decide

/-- Claim C4 amended: the display lesson list contains exactly one entry per
child folder whose subtree holds at least one lesson (zero-lesson child
folders yield no entry), ordered by the Natural Order Comparator; it falls
back to the node's direct lesson list exactly when no child folder yields an
entry (no child folders at all, or all of them with empty subtrees). -/
theorem c4_entries_characterization (lc : Str → Str → Int) (node : DirectoryNode) :
    getChildFoldersAsLessons lc node =
      if ((sortChildren lc node.children.toList).filter
            fun c => !(getAllLessons c).isEmpty).map folderDisplayEntry = [] then
        node.lessons.map liftLessonItem
      else
        ((sortChildren lc node.children.toList).filter
            fun c => !(getAllLessons c).isEmpty).map folderDisplayEntry :=
  getChildFoldersAsLessons_eq lc node

/-- Claim C5 counterexample: the child folder `cexF5` contains no video
lesson, so the claim requires the navigation target to be the first lesson in
comparator order (titled `1 a`); the code instead takes
`lessonsInFolder[0]` of the unsorted traversal and navigates to `2 b`. -/
theorem c5_counterexample :
    (∀ l ∈ getAllLessons cexF5, l.lesson_type ≠ LessonType.video)
    ∧ (getChildFoldersAsLessons lc0 cexC5).map (fun e => e.title) = [str "2 b"]
    ∧ ((cexF5.lessons
          ++ (sortChildren lc0 cexF5.children.toList).flatMap getAllLessons).head?.map
        fun l => l.title) = some (str "1 a") := by
  decide

/-- Claim C5 amended: each child folder with at least one lesson under it
yields exactly its entry in the display list; the entry's `lessonType` is the
first type present anywhere under the folder in priority order
`video > audio > quiz`, else `text` (all four branches below: `video` iff a
video lesson exists, `audio` when audio but no video, `quiz` when quiz but
neither video nor audio, `text` when none of the three); the navigation
target is the first video lesson in TRAVERSAL order if one exists, otherwise
the first lesson in traversal order (direct lessons first, then children in
insertion order) — not comparator order. -/
theorem c5_representative_selection (lc : Str → Str → Int)
    (node child : DirectoryNode)
    (hmem : child ∈ sortChildren lc node.children.toList)
    (hne : getAllLessons child ≠ []) :
    folderDisplayEntry child ∈ getChildFoldersAsLessons lc node
    ∧ (folderDisplayEntry child).displayName = some child.name
    ∧ ((folderDisplayEntry child).lesson_type = LessonType.video ↔
        ∃ l ∈ getAllLessons child, l.lesson_type = LessonType.video)
    ∧ (∀ v, (getAllLessons child).find?
          (fun l => l.lesson_type = LessonType.video) = some v →
        (folderDisplayEntry child).title = v.title
          ∧ (folderDisplayEntry child).path = v.path)
    ∧ ((getAllLessons child).find?
          (fun l => l.lesson_type = LessonType.video) = none →
        ∃ hd, (getAllLessons child).head? = some hd
          ∧ (folderDisplayEntry child).title = hd.title
          ∧ (folderDisplayEntry child).path = hd.path)
    ∧ ((¬ ∃ l ∈ getAllLessons child, l.lesson_type = LessonType.video) →
        (∃ l ∈ getAllLessons child, l.lesson_type = LessonType.audio) →
        (folderDisplayEntry child).lesson_type = LessonType.audio)
    ∧ ((¬ ∃ l ∈ getAllLessons child, l.lesson_type = LessonType.video) →
        (¬ ∃ l ∈ getAllLessons child, l.lesson_type = LessonType.audio) →
        (∃ l ∈ getAllLessons child, l.lesson_type = LessonType.quiz) →
        (folderDisplayEntry child).lesson_type = LessonType.quiz)
    ∧ ((¬ ∃ l ∈ getAllLessons child, l.lesson_type = LessonType.video) →
        (¬ ∃ l ∈ getAllLessons child, l.lesson_type = LessonType.audio) →
        (¬ ∃ l ∈ getAllLessons child, l.lesson_type = LessonType.quiz) →
        (folderDisplayEntry child).lesson_type = LessonType.text) := by
  have hmem2 : child ∈ (sortChildren lc node.children.toList).filter
      fun c => !(getAllLessons c).isEmpty := by
    rw [List.mem_filter]
    refine ⟨hmem, ?_⟩
    cases hl : getAllLessons child with
    | nil => exact absurd hl hne
    | cons a as => simp [hl]
  have hmementry : folderDisplayEntry child
      ∈ ((sortChildren lc node.children.toList).filter
          fun c => !(getAllLessons c).isEmpty).map folderDisplayEntry :=
    List.mem_map_of_mem folderDisplayEntry hmem2
  obtain ⟨fl, hfl⟩ : ∃ fl, folderFirstLesson child = some fl := by
    cases hf : folderFirstLesson child with
    | none => exact absurd ((folderFirstLesson_eq_none_iff child).mp hf) hne
    | some fl => exact ⟨fl, rfl⟩
  have he := folderDisplayEntry_of_some hfl
  refine ⟨?_, ?_, ?_, ?_, ?_, ?_, ?_, ?_⟩
  · rw [getChildFoldersAsLessons_eq, if_neg (List.ne_nil_of_mem hmementry)]
    exact hmementry
  · rw [he]
  · rw [he]
    exact folderLessonType_video_iff child
  · intro v hv
    have : folderFirstLesson child = some v := by
      simp only [folderFirstLesson, hv]
    rw [this] at hfl
    obtain rfl : v = fl := by injection hfl
    rw [he]
    exact ⟨rfl, rfl⟩
  · intro hnone
    have : folderFirstLesson child = (getAllLessons child).head? := by
      simp only [folderFirstLesson, hnone]
    rw [hfl] at this
    rw [he]
    exact ⟨fl, this.symm, rfl, rfl⟩
  · intro hnv ha
    rw [he]
    show folderLessonType child = LessonType.audio
    rw [folderLessonType_spec, if_neg hnv, if_pos ha]
  · intro hnv hna hq
    rw [he]
    show folderLessonType child = LessonType.quiz
    rw [folderLessonType_spec, if_neg hnv, if_neg hna, if_pos hq]
  · intro hnv hna hnq
    rw [he]
    show folderLessonType child = LessonType.text
    rw [folderLessonType_spec, if_neg hnv, if_neg hna, if_neg hnq]

/-- Claim C5 witness: the claim's own concrete scenario — a folder holding
one `text` lesson and one `video` lesson gets the video lesson's title/path
as its navigation target and `lessonType` `video`. -/
theorem c5_representative_selection_witness :
    folderDisplayEntry w5F ∈ getChildFoldersAsLessons lc0 w5C
    ∧ (folderDisplayEntry w5F).lesson_type = LessonType.video
    ∧ (folderDisplayEntry w5F).title = w5video.title
    ∧ (folderDisplayEntry w5F).path = w5video.path := by
  have h := c5_representative_selection lc0 w5C w5F
    (by simp [sortChildren, sortByComparator, insertByComparator,
      NodeList.toList, w5C, DirectoryNode.children])
    (by decide)
  have hfind : (getAllLessons w5F).find?
      (fun l => l.lesson_type = LessonType.video) = some w5video := by decide
  have hv := h.2.2.2.1 w5video hfind
  exact ⟨h.1, h.2.2.1.mpr ⟨w5video, by decide, rfl⟩, hv.1, hv.2⟩

/-- Claim C6 counterexample: `1000000 Advanced` has a leading numeric prefix
while `Extras` has none, yet the comparator does not place the numbered name
first — the unnumbered sentinel is `999999`, which is smaller than this real
prefix. -/
theorem c6_counterexample :
    leadingDigits (str "1000000 Advanced") ≠ []
    ∧ leadingDigits (str "Extras") = []
    ∧ ¬ naturalCompare lc0 (str "1000000 Advanced") (str "Extras") < 0 := by
  decide

/-- Claim C6 amended: when exactly one of the two names has a leading digit
run, the numbered name sorts before the unnumbered one PROVIDED its numeric
prefix is below the sentinel `999999` (names with prefix `999999` or more tie
with or sort after the unnumbered name, whatever the tie-break `lc` does). -/
theorem c6_numbered_before_unnumbered (lc : Str → Str → Int) (a b : Str)
    (ha : leadingDigits a ≠ [])
    (hlt : digitsToNat (leadingDigits a) < 999999)
    (hb : leadingDigits b = []) :
    naturalCompare lc a b < 0 := by
  have hna : numPrefixOr999999 a = digitsToNat (leadingDigits a) := by
    simp [numPrefixOr999999, ha]
  have hnb : numPrefixOr999999 b = 999999 := by
    simp [numPrefixOr999999, hb]
  have hne : numPrefixOr999999 a ≠ numPrefixOr999999 b := by
    rw [hna, hnb]
    omega
  simp only [naturalCompare, if_pos hne, hna, hnb]
  have : (digitsToNat (leadingDigits a) : Int) < (999999 : Int) := by
    exact_mod_cast hlt
  omega

/-- Claim C6 witness: `2 Intro` sorts before `Extras` for every tie-break. -/
theorem c6_numbered_before_unnumbered_witness :
    naturalCompare lc0 (str "2 Intro") (str "Extras") < 0 :=
  c6_numbered_before_unnumbered lc0 (str "2 Intro") (str "Extras")
    (by decide) (by decide) (by decide)

/-- Claim C8 counterexample: `cex8` holds two lessons with distinct paths,
but because the first title contains a path separator (`x/y`) their canonical
keys coincide — the batch has one key per lesson but the keys are NOT
pairwise distinct. -/
theorem c8_counterexample :
    (getAllLessonsFromNode cex8).length = 2
    ∧ ¬ (markFolderComplete (str "/r") cex8).Nodup := by
  decide

/-- Claim C8 amended: `markFolderComplete` produces exactly one canonical key
per lesson in the subtree, and the keys are pairwise distinct provided the
(slash-normalized) lesson paths are pairwise distinct, each is anchored under
the course root, and no title contains a path separator (title collisions are
the spec's own accepted `AmbiguousKey` exception). -/
theorem c8_batch_keys (coursePath : Str) (node : DirectoryNode)
    (hnodup : ((getAllLessonsFromNode node).map fun l => normSlash l.path).Nodup)
    (hanch : ∀ l ∈ getAllLessonsFromNode node,
        (normSlash coursePath ++ ['/']).isPrefixOf (normSlash l.path) = true)
    (htitle : ∀ l ∈ getAllLessonsFromNode node, ¬ '/' ∈ l.title) :
    (markFolderComplete coursePath node).length = (getAllLessonsFromNode node).length
    ∧ (markFolderComplete coursePath node).Nodup := by
  have hpaths : markFolderComplete coursePath node
      = (getAllLessonsFromNode node).map
          fun l => buildLessonFullPath coursePath l.path l.title :=
    getAllLessonPaths_eq_map coursePath node
  have d : (getAllLessonsFromNode node).Nodup := List.Nodup.of_map _ hnodup
  have ginj := (List.nodup_map_iff_inj_on d).mp hnodup
  constructor
  · rw [hpaths, List.length_map]
  · rw [hpaths]
    apply (List.nodup_map_iff_inj_on d).mpr
    intro x hx y hy hkey
    obtain ⟨tx, htx⟩ := isPrefixOf_iff_exists.mp (hanch x hx)
    obtain ⟨ty, hty⟩ := isPrefixOf_iff_exists.mp (hanch y hy)
    have hx2 : normSlash x.path = normSlash coursePath ++ '/' :: tx := by
      rw [htx, List.append_assoc, List.singleton_append]
    have hy2 : normSlash y.path = normSlash coursePath ++ '/' :: ty := by
      rw [hty, List.append_assoc, List.singleton_append]
    rw [buildLessonFullPath_anchored x.title hx2,
      buildLessonFullPath_anchored y.title hy2] at hkey
    obtain ⟨hrel, _⟩ := append_slash_last_inj
      (underscoreSpaces_no_slash (htitle x hx))
      (underscoreSpaces_no_slash (htitle y hy)) hkey
    exact ginj x hx y hy (by rw [hx2, hy2, hrel])

/-- Claim C8 witness: on the five-lesson folder `w8` the batch has exactly
five pairwise distinct canonical keys. -/
theorem c8_batch_keys_witness :
    (markFolderComplete (str "/r") w8).length = 5
    ∧ (markFolderComplete (str "/r") w8).Nodup := by
  have h := c8_batch_keys (str "/r") w8 (by decide) (by decide) (by decide)
  refine ⟨?_, h.2⟩
  rw [h.1]
  decide

/-- Claim C9 counterexample: for the lesson path `/other/x.mp4`, which is not
a descendant of the course root `/course`, the key derivation does not fail —
it silently returns the unanchored key `other/x.mp4/My_Lesson` (no
`MalformedTree` error exists anywhere in the code). -/
theorem c9_counterexample :
    occursIn (normSlash (str "/course")) (normSlash (str "/other/x.mp4")) = false
    ∧ buildLessonFullPath (str "/course") (str "/other/x.mp4") (str "My Lesson")
        = str "other/x.mp4/My_Lesson" := by
  decide

/-- Claim C9 amended: the key derivations are total and never fail; when the
course path does not occur in the lesson path, the prefix-stripping `replace`
is a no-op and the derivation silently returns a key built from the full,
unanchored lesson path (with one leading separator stripped and the
underscored title appended). -/
theorem c9_no_malformed_tree_error (coursePath path title : Str)
    (h1 : occursIn (normSlash coursePath) (normSlash path) = false)
    (h2 : occursIn coursePath path = false) :
    buildLessonFullPath coursePath path title
      = stripLeadSlash (normSlash path) ++ '/' :: underscoreSpaces title
    ∧ treeNodeLessonKey coursePath path title
      = normSlash (stripLeadSep path) ++ '/' :: underscoreSpaces title := by
  constructor
  · simp only [buildLessonFullPath, replaceOnce_not_occurs h1]
  · simp only [treeNodeLessonKey, replaceOnce_not_occurs h2]

/-- Claim C9 witness: the amended behaviour at the concrete non-descendant
input `/other/x.mp4` under root `/course`. -/
theorem c9_no_malformed_tree_error_witness :
    buildLessonFullPath (str "/course") (str "/other/x.mp4") (str "My Lesson")
      = stripLeadSlash (normSlash (str "/other/x.mp4"))
          ++ '/' :: underscoreSpaces (str "My Lesson")
    ∧ treeNodeLessonKey (str "/course") (str "/other/x.mp4") (str "My Lesson")
      = normSlash (stripLeadSep (str "/other/x.mp4"))
          ++ '/' :: underscoreSpaces (str "My Lesson") :=
  c9_no_malformed_tree_error (str "/course") (str "/other/x.mp4")
    (str "My Lesson") (by decide) (by decide)

/-- Claim C10 counterexample: with a backslash course path `a\b` and a
forward-slash lesson path `a/b/c`, `LessonView`'s `buildLessonFullPath`
(which normalizes separators BEFORE stripping) computes `c/T`, while the
`TreeNode` click handler and `navigateToLesson` (which strip the raw course
path first) compute `a/b/c/T` — the three reimplementations do not agree on
every triple. -/
theorem c10_counterexample :
    buildLessonFullPath (str "a\\b") (str "a/b/c") (str "T")
      ≠ treeNodeLessonKey (str "a\\b") (str "a/b/c") (str "T")
    ∧ buildLessonFullPath (str "a\\b") (str "a/b/c") (str "T")
      ≠ navigateToLessonKey (str "a\\b") (str "a/b/c") (str "T") := by
  decide

/-- Claim C10 amended: the three canonical-key derivations agree on every
`(lesson path, title, course path)` triple in which neither the lesson path
nor the course path contains a backslash (the separator-normalization steps
are then no-ops, and the three orderings of strip/normalize coincide). -/
theorem c10_agree_on_forward_slash_paths (coursePath path title : Str)
    (h1 : ¬ '\\' ∈ coursePath) (h2 : ¬ '\\' ∈ path) :
    buildLessonFullPath coursePath path title
      = treeNodeLessonKey coursePath path title
    ∧ buildLessonFullPath coursePath path title
      = navigateToLessonKey coursePath path title := by
  have hcp := normSlash_eq_self h1
  have hp := normSlash_eq_self h2
  have hr : ¬ '\\' ∈ replaceOnce coursePath path :=
    fun hmem => h2 (mem_of_mem_replaceOnce hmem)
  have hnr := normSlash_eq_self hr
  have hsep := stripLeadSep_eq_stripLeadSlash hr
  have hs : ¬ '\\' ∈ stripLeadSep (replaceOnce coursePath path) :=
    fun hmem => hr (mem_of_mem_stripLeadSep hmem)
  have hs2 : ¬ '\\' ∈ stripLeadSlash (replaceOnce coursePath path) := hsep ▸ hs
  constructor
  · simp only [buildLessonFullPath, treeNodeLessonKey, hcp, hp,
      hsep, normSlash_eq_self hs2]
  · simp only [buildLessonFullPath, navigateToLessonKey, hcp, hp, hnr, hsep]

/-- Claim C10 witness: the three derivations agree at the concrete
forward-slash triple. -/
theorem c10_agree_on_forward_slash_paths_witness :
    buildLessonFullPath (str "/r") (str "/r/a/b.mp4") (str "My Lesson")
      = treeNodeLessonKey (str "/r") (str "/r/a/b.mp4") (str "My Lesson")
    ∧ buildLessonFullPath (str "/r") (str "/r/a/b.mp4") (str "My Lesson")
      = navigateToLessonKey (str "/r") (str "/r/a/b.mp4") (str "My Lesson") :=
  c10_agree_on_forward_slash_paths (str "/r") (str "/r/a/b.mp4")
    (str "My Lesson") (by decide) (by decide)
